import Mathlib

/-!
Shallow embedding of the core of `src/ffmpeg.ts` (the boundary detector, the
time-keyed filter compiler, and the smart-trim orchestrator), together with
theorems settling the frozen claims about it.

Modelling conventions:
* Times are exact rationals (`ℚ`); the source's `Math.round(x)` (round half
  toward plus infinity) is `jsRound`.
* The textual stderr lines of the external tool are modelled as pre-classified
  tokens (`FfmpegLine`): each real line matches at most one of the three fixed
  regular expressions, and the unused captured fields (`pblack`, `pts`, `type`,
  `last_keyframe`) are dropped.
* The interval tree (`node-interval-tree`) is modelled as an insertion-ordered
  list of `(low, high, value)` triples; `search t t` returns the values of the
  stored closed intervals containing `t`, in insertion order.
* Argument lists are lists of tokens (`Tok`): literal flags are `.str`,
  file-path arguments are `.path`, numeric interpolations are `.num`, the
  `-read_intervals` window string is `.readIntervals`, and the compiled
  `-filter_complex` graph is `.filterExpr` (its conditional expressions are
  kept as syntax trees `TimeExpr`, exactly the shape of the emitted text).
* A subprocess invocation is `Invocation` (command, argument tokens, optional
  piped input chunks); an orchestration run is the list of invocations it
  starts, in start order, and a thrown exception is `Option.none`.
-/

namespace NhkRecord

/-! ### Kernel-reducible rational arithmetic

The standard library marks `Rat.add`, `Rat.sub`, `Rat.mul` and `Rat.inv`
irreducible, so concrete runs of the embedding could not be checked by
`decide`.  The four wrappers below compute the same operations through
`Rat.divInt` (which does reduce); `qadd_eq`, `qsub_eq`, `qmul_eq` and
`qdiv_eq` prove them equal to the field operations of `ℚ`, so every theorem
below may be read with ordinary rational arithmetic. -/

/-- Reducible rational addition (see section comment). -/
def qadd (a b : ℚ) : ℚ :=
  Rat.divInt (a.num * (b.den : ℤ) + b.num * (a.den : ℤ)) ((a.den : ℤ) * (b.den : ℤ))

/-- Reducible rational subtraction. -/
def qsub (a b : ℚ) : ℚ :=
  Rat.divInt (a.num * (b.den : ℤ) - b.num * (a.den : ℤ)) ((a.den : ℤ) * (b.den : ℤ))

/-- Reducible rational multiplication. -/
def qmul (a b : ℚ) : ℚ :=
  Rat.divInt (a.num * b.num) ((a.den : ℤ) * (b.den : ℤ))

/-- Reducible rational division (`qdiv a 0 = 0`, as in `ℚ`). -/
def qdiv (a b : ℚ) : ℚ :=
  Rat.divInt (a.num * (b.den : ℤ)) ((a.den : ℤ) * b.num)

theorem qadd_eq (a b : ℚ) : qadd a b = a + b := by
  conv_rhs => rw [← Rat.num_divInt_den a, ← Rat.num_divInt_den b]
  rw [Rat.divInt_add_divInt _ _ (Int.natCast_ne_zero.mpr a.den_nz)
    (Int.natCast_ne_zero.mpr b.den_nz)]
  rfl

theorem qsub_eq (a b : ℚ) : qsub a b = a - b := by
  conv_rhs => rw [← Rat.num_divInt_den a, ← Rat.num_divInt_den b]
  rw [Rat.divInt_sub_divInt _ _ (Int.natCast_ne_zero.mpr a.den_nz)
    (Int.natCast_ne_zero.mpr b.den_nz)]
  rfl

theorem qmul_eq (a b : ℚ) : qmul a b = a * b := by
  conv_rhs => rw [← Rat.num_divInt_den a, ← Rat.num_divInt_den b]
  rw [Rat.divInt_mul_divInt _ _ (Int.natCast_ne_zero.mpr a.den_nz)
    (Int.natCast_ne_zero.mpr b.den_nz)]
  rfl

theorem qdiv_eq (a b : ℚ) : qdiv a b = a / b := (Rat.div_def' a b).symm

/-- JavaScript `Math.round`: round half toward positive infinity. -/
def jsRound (q : ℚ) : ℤ := (qadd q (Rat.divInt 1 2)).floor

theorem jsRound_eq (q : ℚ) : jsRound q = (q + 1 / 2).floor := by
  unfold jsRound
  rw [qadd_eq, Rat.divInt_eq_div]
  norm_num

/-- `FULL_CROP_WIDTH` from the source. -/
def FULL_CROP_WIDTH : ℕ := 1920

/-- `FrameSearchStrategy` from the source.  `maxSkip` and `minSilenceSeconds`
are optional there (defaulted to `1` and `0` at the use sites). -/
structure FrameSearchStrategy where
  name : String
  filters : List ℕ
  maxSkip : Option ℕ := none
  minSilenceSeconds : Option ℚ := none
  minFrames : ℕ
deriving DecidableEq, Repr

/-- `Silence` from the source (both fields in rounded milliseconds). -/
structure Silence where
  startTime : ℤ
  endTime : ℤ
deriving DecidableEq, Repr

/-- `BlackframeOutput` from the source (`time` in rounded milliseconds). -/
structure BlackframeOutput where
  filterNum : ℕ
  frameNum : ℕ
  time : ℤ
deriving DecidableEq, Repr

/-- `DetectedFeature` from the source; the source field `end` is a Lean
keyword and is rendered `stop` here. -/
structure DetectedFeature where
  start : ℤ
  stop : ℤ
  firstFrame : ℕ
  lastFrame : ℕ
deriving DecidableEq, Repr

/-- `MINIMUM_BOUNDARY_SILENCE_SECONDS` from the source. -/
def MINIMUM_BOUNDARY_SILENCE_SECONDS : ℚ := Rat.divInt 1 10

/-- `BOUNDARY_STRATEGIES` from the source, in priority order. -/
def BOUNDARY_STRATEGIES : List FrameSearchStrategy :=
  [ { name := "black-logo", filters := [11], minSilenceSeconds := some (Rat.divInt 3 2), minFrames := 5 },
    { name := "white-logo", filters := [13], minSilenceSeconds := some (Rat.divInt 3 2), minFrames := 5 },
    { name := "white-borders-logo", filters := [15], minSilenceSeconds := some (Rat.divInt 3 2), minFrames := 5 },
    { name := "black-logo-ai-subtitles", filters := [17], minSilenceSeconds := some (Rat.divInt 3 2), minFrames := 5 },
    { name := "black-no-logo-ai-subtitles", filters := [19], minSilenceSeconds := some (Rat.divInt 3 2), minFrames := 5 },
    { name := "no-logo", filters := [20], minSilenceSeconds := some (Rat.divInt 1 10), minFrames := 3 },
    { name := "newsline", filters := [22], minSilenceSeconds := some 0, minFrames := 1 } ]

/-- `NEWS_BANNER_STRATEGY` from the source. -/
def NEWS_BANNER_STRATEGY : FrameSearchStrategy :=
  { name := "news-banner-background", filters := [13], maxSkip := some 120, minFrames := 120 }

/-- One stderr line of the differencing pass, pre-classified against the three
fixed output patterns (`blackframe` measurement, `silencedetect` interval, or
anything else).  Numeric captures are carried as exact values: `time`,
`endTime` and `duration` in seconds as parsed by `parseFloat`. -/
inductive FfmpegLine where
  | blackframe (filterNum frameNum : ℕ) (time : ℚ)
  | silence (endTime duration : ℚ)
  | other
deriving DecidableEq, Repr

/-- Whether a line matches the `silencedetect` output pattern. -/
def isSilenceLine : FfmpegLine → Bool
  | .silence _ _ => true
  | _ => false

/-- `findSilences` from the source: map matching lines to `Silence` records
(start = `round((end - duration) * 1000)`, end = `round(end * 1000)`). -/
def findSilences (ffmpegLines : List FfmpegLine) : List Silence :=
  ffmpegLines.filterMap fun l =>
    match l with
    | .silence endTime duration =>
        some { startTime := jsRound (qmul (qsub endTime duration) 1000),
               endTime := jsRound (qmul endTime 1000) }
    | _ => none

/-- Model of `node-interval-tree` with integer values: a list of
`(low, high, value)` triples in insertion order. -/
abbrev IntervalTree : Type := List (ℤ × ℤ × ℤ)

/-- `tree.search t t`: the values of the stored closed intervals containing
`t`, in insertion order. -/
def intervalSearch (tree : IntervalTree) (t : ℤ) : List ℤ :=
  (tree.filter fun iv => decide (iv.1 ≤ t ∧ t ≤ iv.2.1)).map fun iv => iv.2.2

/-- The interval structure built in `detectPotentialBoundaries`:
`tree.insert(startTime, endTime, endTime - startTime)` for each silence. -/
def buildCandidateWindows (silences : List Silence) : IntervalTree :=
  silences.foldl (fun tree s => tree ++ [(s.startTime, s.endTime, s.endTime - s.startTime)]) []

/-- Parsing step of `findBlackframeGroups`: lines matching the blackframe
pattern become `BlackframeOutput` records (`time` rounded to milliseconds). -/
def parseBlackframes (ffmpegLines : List FfmpegLine) : List BlackframeOutput :=
  ffmpegLines.filterMap fun l =>
    match l with
    | .blackframe filterNum frameNum time =>
        some { filterNum := filterNum, frameNum := frameNum, time := jsRound (qmul time 1000) }
    | _ => none

/-- The silence gate of `findBlackframeGroups`, exactly as the source parses:
`head(candidateWindows.search(time, time)) ?? 0 >= (strategy.minSilenceSeconds ?? 0)`.
JavaScript gives `>=` higher precedence than `??`, so this is
`head(...) ?? (0 >= (strategy.minSilenceSeconds ?? 0))`: when the time lies in
some stored interval the first such interval's duration is the result (truthy
iff nonzero), otherwise the boolean `0 >= minSilenceSeconds` is. -/
def silenceGate (tree : IntervalTree) (strategy : FrameSearchStrategy)
    (m : BlackframeOutput) : Bool :=
  match (intervalSearch tree m.time).head? with
  | some d => decide (d ≠ 0)
  | none => decide ((0 : ℚ) ≥ strategy.minSilenceSeconds.getD 0)

/-- One insertion step of the stable sort.  The source sorts with
`compareFunc(['filterNum', 'frame'])`; the parsed records carry `frameNum`,
not `frame`, so the comparator reads `undefined` for the second key and the
sort orders by `filterNum` alone, keeping the original relative order of
records with equal `filterNum` (JavaScript `Array.prototype.sort` is stable).
`insertByFilterNum` places `x` after every element with a strictly smaller
`filterNum` and before the rest. -/
def insertByFilterNum (x : BlackframeOutput) : List BlackframeOutput → List BlackframeOutput
  | [] => [x]
  | y :: ys => if y.filterNum < x.filterNum then y :: insertByFilterNum x ys else x :: y :: ys

/-- The stable sort by `filterNum` (see `insertByFilterNum`). -/
def sortByFilterNum : List BlackframeOutput → List BlackframeOutput
  | [] => []
  | x :: xs => insertByFilterNum x (sortByFilterNum xs)

/-- Split a list into maximal runs of elements whose consecutive pairs satisfy
`rel`.  This is the functional reading of the source's `reduce`: each new
element is appended to the current (last) group when `rel last current` holds,
and starts a fresh group otherwise. -/
def groupRuns {α : Type} (rel : α → α → Bool) : List α → List (List α)
  | [] => []
  | [x] => [[x]]
  | x :: y :: rest =>
    match groupRuns rel (y :: rest) with
    | g :: gs => if rel x y then (x :: g) :: gs else [x] :: g :: gs
    | [] => [[x]]

/-- The grouping relation of `findBlackframeGroups`:
`frame.frameNum - lastFrame.frameNum <= (strategy.maxSkip ?? 1) &&
 frame.filterNum === lastFrame.filterNum`. -/
def groupRel (strategy : FrameSearchStrategy) (a b : BlackframeOutput) : Bool :=
  decide ((b.frameNum : ℤ) - (a.frameNum : ℤ) ≤ (strategy.maxSkip.getD 1 : ℤ))
    && decide (b.filterNum = a.filterNum)

/-- Fallback record used for `head`/`last` of a group; groups produced by
`groupRuns` are never empty, so it is never read. -/
def defaultBlackframe : BlackframeOutput := { filterNum := 0, frameNum := 0, time := 0 }

/-- The final mapping step of `findBlackframeGroups`: a surviving group
becomes a `DetectedFeature` from its first and last records. -/
def mkFeature (g : List BlackframeOutput) : DetectedFeature :=
  { start := (g.headD defaultBlackframe).time,
    stop := (g.getLastD defaultBlackframe).time,
    firstFrame := (g.headD defaultBlackframe).frameNum,
    lastFrame := (g.getLastD defaultBlackframe).frameNum }

/-- The parse-filter-gate prefix of the `findBlackframeGroups` pipeline. -/
def keptMeasurements (ffmpegLines : List FfmpegLine) (strategy : FrameSearchStrategy)
    (tree : IntervalTree) : List BlackframeOutput :=
  ((parseBlackframes ffmpegLines).filter fun m => strategy.filters.contains m.filterNum).filter
    (silenceGate tree strategy)

/-- `findBlackframeGroups` from the source: parse, keep the strategy's filter
ids, apply the silence gate, stable-sort by `filterNum`, group consecutive
records (`groupRel`), drop groups shorter than `minFrames`, and map to
features. -/
def findBlackframeGroups (ffmpegLines : List FfmpegLine) (strategy : FrameSearchStrategy)
    (tree : IntervalTree := []) : List DetectedFeature :=
  ((groupRuns (groupRel strategy) (sortByFilterNum (keptMeasurements ffmpegLines strategy tree))).filter
      fun g => strategy.minFrames ≤ g.length).map mkFeature

/-- The strategy loop of `detectPotentialBoundaries`, instrumented with the
list of strategy names whose grouping was evaluated, in evaluation order. -/
def boundaryLoop (ffmpegLines : List FfmpegLine) (tree : IntervalTree) :
    List FrameSearchStrategy → List DetectedFeature × List String
  | [] => ([], [])
  | s :: rest =>
    let candidates := findBlackframeGroups ffmpegLines s tree
    if candidates.isEmpty then
      let r := boundaryLoop ffmpegLines tree rest
      (r.1, s.name :: r.2)
    else (candidates, [s.name])

/-- `detectPotentialBoundaries` from the source, as a function of the
differencing pass's stderr lines, paired with the names of the strategies
whose grouping was evaluated: return `[]` at once when no silences parsed,
otherwise run the fallback chain over the silence interval structure. -/
def detectPotentialBoundariesTraced (ffmpegLines : List FfmpegLine) :
    List DetectedFeature × List String :=
  let silences := findSilences ffmpegLines
  if silences.isEmpty then ([], [])
  else boundaryLoop ffmpegLines (buildCandidateWindows silences) BOUNDARY_STRATEGIES

/-- The detector's result (first component of the traced run). -/
def detectPotentialBoundaries (ffmpegLines : List FfmpegLine) : List DetectedFeature :=
  (detectPotentialBoundariesTraced ffmpegLines).1

/-- `detectNewsBanners` from the source: the identical grouping with the one
fixed strategy and no silence gating (fresh, empty interval structure). -/
def detectNewsBanners (ffmpegLines : List FfmpegLine) : List DetectedFeature :=
  findBlackframeGroups ffmpegLines NEWS_BANNER_STRATEGY

/-- `CropParameters`: a `(time, width)` sample; `width` is optional and
defaults to the full frame width at the use site. `time` is in milliseconds
(`detectCropArea` produces it as an unrounded float, hence `ℚ`). -/
structure CropParameters where
  time : ℚ
  width : Option ℕ
deriving DecidableEq, Repr

/-- Syntax tree of the conditional expression text emitted by
`generateTimeSequence`: either a bare value `v`, or
`if(gte(t,timeSec),v,rest)`. -/
inductive TimeExpr where
  | val (v : ℤ)
  | branch (timeSec : ℚ) (v : ℤ) (rest : TimeExpr)
deriving DecidableEq, Repr

/-- The recursion of `generateTimeSequence` over the reversed sample list.
The source destructures `last(cropParameters) ?? {}` and recurses on
`init(cropParameters)`; reversing first makes that structural: the head of the
reversed list is the last sample.  `!time` is true exactly when the sample
list is empty or the last sample's time is `0` (JavaScript falsiness). -/
def generateTimeSequenceRev (calcValue : ℕ → ℤ) : List CropParameters → TimeExpr
  | [] => .val (calcValue FULL_CROP_WIDTH)
  | p :: rest =>
    if p.time = 0 then .val (calcValue (p.width.getD FULL_CROP_WIDTH))
    else .branch (qdiv p.time 1000) (calcValue (p.width.getD FULL_CROP_WIDTH))
           (generateTimeSequenceRev calcValue rest)

/-- `generateTimeSequence` from the source (see `generateTimeSequenceRev`). -/
def generateTimeSequence (calcValue : ℕ → ℤ) (cropParameters : List CropParameters) : TimeExpr :=
  generateTimeSequenceRev calcValue cropParameters.reverse

/-- Evaluation of the emitted expression by the external tool at frame time
`t` (seconds): `if(gte(t,ts),v,rest)`. -/
def evalTimeExpr (t : ℚ) : TimeExpr → ℤ
  | .val v => v
  | .branch ts v rest => if ts ≤ t then v else evalTimeExpr t rest

/-- `calculateScaleWidth` from the source:
`Math.round(FULL_CROP_WIDTH * FULL_CROP_WIDTH / cropWidth / 2) * 2`. -/
def calculateScaleWidth (cropWidth : ℕ) : ℤ :=
  jsRound (qdiv (qdiv ((FULL_CROP_WIDTH * FULL_CROP_WIDTH : ℕ) : ℚ) (cropWidth : ℚ)) 2) * 2

/-- `calculateOverlayPosition` from the source:
`Math.round((cropWidth - FULL_CROP_WIDTH) / 2)`. -/
def calculateOverlayPosition (cropWidth : ℕ) : ℤ :=
  jsRound (qdiv (qsub (cropWidth : ℚ) ((FULL_CROP_WIDTH : ℕ) : ℚ)) 2)

/-- The content of a compiled `-filter_complex` value: the two conditional
expressions of the crop/overlay/scale chain (when crop samples exist) and the
thumbnail PTS shift in seconds (when a thumbnail stream exists). -/
structure FilterChain where
  cropExprs : Option (TimeExpr × TimeExpr)
  thumbnailShiftSec : Option ℚ
deriving DecidableEq, Repr

/-- One argument token.  Literal flags are `.str`; file paths are `.path`;
numeric interpolations (always printed by JavaScript template strings) are
`.num`; `.readIntervals a b` is the string `"{a}%+10,{b}%+10"`; `.filterExpr`
is a compiled filter graph. -/
inductive Tok where
  | str (s : String)
  | path (p : String)
  | num (q : ℚ)
  | readIntervals (a b : ℚ)
  | filterExpr (fc : FilterChain)
deriving DecidableEq, Repr

/-- `generateFilterChain` from the source: empty when there are no crop
samples and no thumbnail, else the single `-filter_complex` argument whose
value contains the overlay-offset and scale-width expressions (when crop
samples exist) and the thumbnail `setpts` shift `start / 1000` (when a
thumbnail exists). -/
def generateFilterChain (start : ℚ) (cropParameters : List CropParameters)
    (hasThumbnail : Bool) : List Tok :=
  if cropParameters.isEmpty && !hasThumbnail then []
  else
    [.str "-filter_complex",
     .filterExpr
       { cropExprs :=
           if cropParameters.isEmpty then none
           else some (generateTimeSequence calculateOverlayPosition cropParameters,
                      generateTimeSequence calculateScaleWidth cropParameters),
         thumbnailShiftSec := if hasThumbnail then some (qdiv start 1000) else none }]

/-- One subprocess invocation: command, argument tokens, and the chunks piped
to its standard input (for the concat step). -/
structure Invocation where
  cmd : String
  args : List Tok
  stdin : Option (List String)
deriving DecidableEq, Repr

/-- `getFfprobeArguments` from the source. -/
def getFfprobeArguments (path : String) : List Tok :=
  [.str "-v", .str "quiet", .str "-print_format", .str "json", .str "-show_format", .path path]

/-- `getFfprobeKeyframeDetectArguments` from the source; the `-read_intervals`
value is the window string built from `start / 1000 - 5` and
`end / 1000 - 5`. -/
def getFfprobeKeyframeDetectArguments (inputPath : String) (start stop : ℚ) : List Tok :=
  [.str "-v", .str "quiet", .str "-select_streams", .str "v:0",
   .str "-skip_frame", .str "nokey", .str "-show_entries", .str "frame=pts_time",
   .str "-read_intervals", .readIntervals (qsub (qdiv start 1000) 5) (qsub (qdiv stop 1000) 5),
   .str "-print_format", .str "json", .path inputPath]

/-- `getFfprobeBitrateArguments` from the source. -/
def getFfprobeBitrateArguments (path : String) : List Tok :=
  [.str "-v", .str "quiet", .str "-select_streams", .str "v:0",
   .str "-show_entries", .str "stream=bit_rate", .str "-print_format", .str "json", .path path]

/-- `getFfmpegPostProcessArguments` from the source (the direct,
single-invocation path). -/
def getFfmpegPostProcessArguments (threadLimit : ℤ) (inputPath outputPath : String)
    (start stop : ℚ) (cropParameters : List CropParameters) (hasThumbnail : Bool) : List Tok :=
  [.str "-y"]
  ++ (if 0 < threadLimit then [.str "-threads", .num (threadLimit : ℚ)] else [])
  ++ [.str "-i", .path inputPath]
  ++ (if hasThumbnail then [.str "-i", .path inputPath] else [])
  ++ [.str "-ss", .num (qdiv start 1000)]
  ++ (if stop ≠ 0 then [.str "-to", .num (qdiv stop 1000)] else [])
  ++ [.str "-codec", .str "copy"]
  ++ generateFilterChain start cropParameters hasThumbnail
  ++ (if cropParameters.isEmpty then [.str "-map", .str "0:0"]
      else [.str "-map", .str "[c]", .str "-crf", .str "19", .str "-preset", .str "veryfast",
            .str "-codec:v:0", .str "libx264"])
  ++ [.str "-map", .str "0:1"]
  ++ (if hasThumbnail then [.str "-map", .str "[tn]", .str "-codec:v:1", .str "mjpeg",
                            .str "-disposition:v:1", .str "attached_pic"] else [])
  ++ [.str "-map_metadata", .str "0", .str "-f", .str "mp4", .path outputPath]

/-- `getKeyframeBoundaries` from the source, as a function of the probed
keyframe presentation timestamps (seconds, in probe output order).  `find`
takes the first frame with `pts_time * 1000 >= start`; `findLast` the last
with `pts_time * 1000 <= end`; reading `.pts_time` of a missing frame throws,
which is `none`. -/
def getKeyframeBoundaries (frames : List ℚ) (start stop : ℚ) : Option (ℚ × ℚ) :=
  match frames.find? (fun t => decide (start ≤ qmul t 1000)),
        frames.reverse.find? (fun t => decide (qmul t 1000 ≤ stop)) with
  | some firstKeyframe, some lastKeyframe => some (qmul firstKeyframe 1000, qmul lastKeyframe 1000)
  | _, _ => none

/-- `SMARTTRIM_FILE_SUFFIX_START` from the source. -/
def SMARTTRIM_FILE_SUFFIX_START : String := ".smarttrim.start"

/-- `SMARTTRIM_FILE_SUFFIX_MID` from the source. -/
def SMARTTRIM_FILE_SUFFIX_MID : String := ".smarttrim.mid"

/-- `SMARTTRIM_FILE_SUFFIX_END` from the source. -/
def SMARTTRIM_FILE_SUFFIX_END : String := ".smarttrim.end"

/-- `getFfmpegRenderCapArguments` from the source (re-encoded cap). -/
def getFfmpegRenderCapArguments (inputPath outputPath : String)
    (start stop bitrate : ℚ) : List Tok :=
  [.str "-ss", .num (qdiv start 1000), .str "-i", .path inputPath,
   .str "-ss", .str "0", .str "-t", .num (qdiv (qsub stop start) 1000),
   .str "-map", .str "0:0", .str "-c:0", .str "libx264", .str "-b:0", .num bitrate,
   .str "-map", .str "0:1", .str "-c:1", .str "copy",
   .str "-video_track_timescale", .str "90000", .str "-ignore_unknown",
   .str "-f", .str "mp4", .path outputPath]

/-- `getFfmpegCopyFragmentArguments` from the source (stream-copied middle). -/
def getFfmpegCopyFragmentArguments (inputPath outputPath : String)
    (start stop : ℚ) : List Tok :=
  [.str "-ss", .num (qdiv start 1000), .str "-i", .path inputPath,
   .str "-ss", .str "0", .str "-t", .num (qdiv (qsub stop start) 1000),
   .str "-map", .str "0:0", .str "-c:0", .str "copy",
   .str "-map", .str "0:1", .str "-c:1", .str "copy",
   .str "-video_track_timescale", .str "90000", .str "-ignore_unknown",
   .str "-f", .str "mp4", .path outputPath]

/-- `getFfmpegConcatenationArguments` from the source. -/
def getFfmpegConcatenationArguments (outputPath : String) : List Tok :=
  [.str "-hide_banner", .str "-f", .str "concat", .str "-safe", .str "0",
   .str "-protocol_whitelist", .str "pipe,file,fd", .str "-i", .str "-",
   .str "-map", .str "0:0", .str "-c:0", .str "copy", .str "-disposition:0", .str "default",
   .str "-map", .str "0:1", .str "-c:1", .str "copy", .str "-disposition:1", .str "default",
   .str "-movflags", .str "+faststart", .str "-default_mode", .str "infer_no_subs",
   .str "-video_track_timescale", .str "90000", .str "-ignore_unknown",
   .str "-f", .str "mp4", .path outputPath]

/-- `renderStartCap` from the source: skip (no invocation, `null` path) when
the span has zero duration, else render to `<input>.smarttrim.start`. -/
def renderStartCap (inputPath : String) (start stop bitrate : ℚ) :
    Option (String × Invocation) :=
  if qsub stop start = 0 then none
  else
    let tempFilename := inputPath ++ SMARTTRIM_FILE_SUFFIX_START
    some (tempFilename,
      { cmd := "ffmpeg",
        args := getFfmpegRenderCapArguments inputPath tempFilename start stop bitrate,
        stdin := none })

/-- `renderEndCap` from the source: skip when the span has zero duration,
else render to `<input>.smarttrim.end`. -/
def renderEndCap (inputPath : String) (start stop bitrate : ℚ) :
    Option (String × Invocation) :=
  if qsub stop start = 0 then none
  else
    let tempFilename := inputPath ++ SMARTTRIM_FILE_SUFFIX_END
    some (tempFilename,
      { cmd := "ffmpeg",
        args := getFfmpegRenderCapArguments inputPath tempFilename start stop bitrate,
        stdin := none })

/-- `copyMidSection` from the source: always stream-copy to
`<input>.smarttrim.mid`. -/
def copyMidSection (inputPath : String) (start stop : ℚ) : String × Invocation :=
  let tempFilename := inputPath ++ SMARTTRIM_FILE_SUFFIX_MID
  (tempFilename,
   { cmd := "ffmpeg",
     args := getFfmpegCopyFragmentArguments inputPath tempFilename start stop,
     stdin := none })

/-- One `file '<path>'` line of the concat plan (`\x27` is the apostrophe). -/
def fileLine (p : String) : String := "file \x27" ++ p ++ "\x27"

/-- `concatSmartTrimFiles` from the source: the plan starts as the mid line,
gets the start line unshifted in front when present and the end line pushed
behind when present, and is piped as chunks `line, "\n", line, "\n", ...`. -/
def concatSmartTrimFiles (outputPath : String) (startPath : Option String)
    (midPath : String) (endPath : Option String) : Invocation :=
  let instructions :=
    (match startPath with | some p => [fileLine p] | none => [])
    ++ [fileLine midPath]
    ++ (match endPath with | some p => [fileLine p] | none => [])
  { cmd := "ffmpeg",
    args := getFfmpegConcatenationArguments outputPath,
    stdin := some (instructions.flatMap fun line => [line, "\n"]) }

/-- `getFfmpegCopyMetadataArguments` from the source (metadata/thumbnail
restore step). -/
def getFfmpegCopyMetadataArguments (originalVideoPath smartTrimVideoPath outputPath : String)
    (hasThumbnail : Bool) : List Tok :=
  [.str "-i", .path originalVideoPath, .str "-i", .path smartTrimVideoPath]
  ++ (if hasThumbnail then [.str "-map", .str "0:2", .str "-c", .str "copy"] else [])
  ++ [.str "-map", .str "1", .str "-c", .str "copy", .str "-map_metadata", .str "0",
      .str "-f", .str "mp4", .path outputPath]

/-- The read-only probe results the orchestrator observes about the input
file: its stream count, the keyframe presentation timestamps (seconds)
returned by the keyframe probe, and the video bitrate. -/
structure ProbeEnv where
  streamCount : ℕ
  keyframes : List ℚ
  bitrate : ℚ
deriving DecidableEq, Repr

/-- `postProcessRecording` from the source, as the list of invocations it
starts, in start order (`Promise.all` starts the mid copy, then the start
cap, then the end cap).  A thrown exception (missing keyframe boundary) is
`none`. -/
def postProcessRecording (threadLimit : ℤ) (env : ProbeEnv) (inputPath outputPath : String)
    (start stop : ℚ) (smartTrim : Bool) (cropParameters : List CropParameters) :
    Option (List Invocation) :=
  let hasThumbnail := decide (2 < env.streamCount)
  let streamCountProbe : Invocation :=
    { cmd := "ffprobe", args := getFfprobeArguments inputPath, stdin := none }
  if smartTrim && cropParameters.isEmpty then
    let temporaryPath := outputPath ++ ".smarttrim.FINAL.mp4"
    let keyframeProbe : Invocation :=
      { cmd := "ffprobe", args := getFfprobeKeyframeDetectArguments inputPath start stop,
        stdin := none }
    match getKeyframeBoundaries env.keyframes start stop with
    | none => none
    | some kf =>
      let bitrateProbe : Invocation :=
        { cmd := "ffprobe", args := getFfprobeBitrateArguments inputPath, stdin := none }
      let mid := copyMidSection inputPath kf.1 kf.2
      let startCap := renderStartCap inputPath start kf.1 env.bitrate
      let endCap := renderEndCap inputPath kf.2 stop env.bitrate
      let concat := concatSmartTrimFiles temporaryPath (startCap.map Prod.fst) mid.1
        (endCap.map Prod.fst)
      let restore : Invocation :=
        { cmd := "ffmpeg",
          args := getFfmpegCopyMetadataArguments inputPath temporaryPath outputPath hasThumbnail,
          stdin := none }
      some ([streamCountProbe, keyframeProbe, bitrateProbe, mid.2]
            ++ (startCap.map Prod.snd).toList ++ (endCap.map Prod.snd).toList
            ++ [concat, restore])
  else
    some [streamCountProbe,
          { cmd := "ffmpeg",
            args := getFfmpegPostProcessArguments threadLimit inputPath outputPath start stop
              cropParameters hasThumbnail,
            stdin := none }]

/-! ### Concrete fixtures

The keyframe fixture is the probe output used throughout the repository's
smart-trim tests: keyframes every 2002 ms around the requested start and end.
The `expected…` invocations below are written out from the test expectations
and the spec's numbers, token by token, to compare the orchestrator's output
against. -/

/-- The input path of the smart-trim fixtures. -/
def fixtureInput : String := "inputPathWithThumbnail.mp4"

/-- The output path of the smart-trim fixtures. -/
def fixtureOutput : String := "outputPath.mp4"

/-- The probed keyframe timestamps (seconds) of the smart-trim fixture. -/
def kfFixture : List ℚ :=
  [Rat.divInt 140140 1000, Rat.divInt 142142 1000, Rat.divInt 144144 1000,
   Rat.divInt 146146 1000, Rat.divInt 148148 1000, Rat.divInt 738738 1000,
   Rat.divInt 740740 1000, Rat.divInt 742742 1000, Rat.divInt 744744 1000,
   Rat.divInt 746746 1000]

/-- Probe results of the smart-trim fixture: 3 streams (embedded thumbnail),
the keyframes above, bitrate 4590588. -/
def envFixture : ProbeEnv := { streamCount := 3, keyframes := kfFixture, bitrate := 4590588 }

/-- Expected stream-count probe of the fixture. -/
def expectedStreamCountProbe : Invocation :=
  { cmd := "ffprobe",
    args := [.str "-v", .str "quiet", .str "-print_format", .str "json", .str "-show_format",
             .path "inputPathWithThumbnail.mp4"],
    stdin := none }

/-- Expected keyframe probe of the fixture, with the two window anchors of
the `-read_intervals` value (seconds). -/
def expectedKeyframeProbe (a b : ℚ) : Invocation :=
  { cmd := "ffprobe",
    args := [.str "-v", .str "quiet", .str "-select_streams", .str "v:0",
             .str "-skip_frame", .str "nokey", .str "-show_entries", .str "frame=pts_time",
             .str "-read_intervals", .readIntervals a b,
             .str "-print_format", .str "json", .path "inputPathWithThumbnail.mp4"],
    stdin := none }

/-- Expected bitrate probe of the fixture. -/
def expectedBitrateProbe : Invocation :=
  { cmd := "ffprobe",
    args := [.str "-v", .str "quiet", .str "-select_streams", .str "v:0",
             .str "-show_entries", .str "stream=bit_rate", .str "-print_format", .str "json",
             .path "inputPathWithThumbnail.mp4"],
    stdin := none }

/-- Expected mid stream copy of the fixture: from keyframe 146146 ms, span
596596 ms. -/
def expectedMidCopy : Invocation :=
  { cmd := "ffmpeg",
    args := [.str "-ss", .num (Rat.divInt 146146 1000), .str "-i", .path "inputPathWithThumbnail.mp4",
             .str "-ss", .str "0", .str "-t", .num (Rat.divInt 596596 1000),
             .str "-map", .str "0:0", .str "-c:0", .str "copy",
             .str "-map", .str "0:1", .str "-c:1", .str "copy",
             .str "-video_track_timescale", .str "90000", .str "-ignore_unknown",
             .str "-f", .str "mp4", .path "inputPathWithThumbnail.mp4.smarttrim.mid"],
    stdin := none }

/-- Expected start-cap render of the fixture, seeking to `ss` seconds with
span `t` seconds. -/
def expectedStartCap (ss t : ℚ) : Invocation :=
  { cmd := "ffmpeg",
    args := [.str "-ss", .num ss, .str "-i", .path "inputPathWithThumbnail.mp4",
             .str "-ss", .str "0", .str "-t", .num t,
             .str "-map", .str "0:0", .str "-c:0", .str "libx264", .str "-b:0", .num 4590588,
             .str "-map", .str "0:1", .str "-c:1", .str "copy",
             .str "-video_track_timescale", .str "90000", .str "-ignore_unknown",
             .str "-f", .str "mp4", .path "inputPathWithThumbnail.mp4.smarttrim.start"],
    stdin := none }

/-- Expected end-cap render of the fixture: from keyframe 742742 ms, span
1335 ms. -/
def expectedEndCap : Invocation :=
  { cmd := "ffmpeg",
    args := [.str "-ss", .num (Rat.divInt 742742 1000), .str "-i", .path "inputPathWithThumbnail.mp4",
             .str "-ss", .str "0", .str "-t", .num (Rat.divInt 1335 1000),
             .str "-map", .str "0:0", .str "-c:0", .str "libx264", .str "-b:0", .num 4590588,
             .str "-map", .str "0:1", .str "-c:1", .str "copy",
             .str "-video_track_timescale", .str "90000", .str "-ignore_unknown",
             .str "-f", .str "mp4", .path "inputPathWithThumbnail.mp4.smarttrim.end"],
    stdin := none }

/-- Expected concatenation step of the fixture with the given piped chunks. -/
def expectedConcat (plan : List String) : Invocation :=
  { cmd := "ffmpeg",
    args := [.str "-hide_banner", .str "-f", .str "concat", .str "-safe", .str "0",
             .str "-protocol_whitelist", .str "pipe,file,fd", .str "-i", .str "-",
             .str "-map", .str "0:0", .str "-c:0", .str "copy", .str "-disposition:0",
             .str "default",
             .str "-map", .str "0:1", .str "-c:1", .str "copy", .str "-disposition:1",
             .str "default",
             .str "-movflags", .str "+faststart", .str "-default_mode", .str "infer_no_subs",
             .str "-video_track_timescale", .str "90000", .str "-ignore_unknown",
             .str "-f", .str "mp4", .path "outputPath.mp4.smarttrim.FINAL.mp4"],
    stdin := some plan }

/-- Expected metadata-restore step of the fixture (thumbnail present). -/
def expectedRestore : Invocation :=
  { cmd := "ffmpeg",
    args := [.str "-i", .path "inputPathWithThumbnail.mp4",
             .str "-i", .path "outputPath.mp4.smarttrim.FINAL.mp4",
             .str "-map", .str "0:2", .str "-c", .str "copy",
             .str "-map", .str "1", .str "-c", .str "copy", .str "-map_metadata", .str "0",
             .str "-f", .str "mp4", .path "outputPath.mp4"],
    stdin := none }

/-- C1 fixture: one silence of 0.2 s (from 1800 ms to 2000 ms) and five
consecutive black-logo (filter 11) measurements inside it. -/
def c1Lines : List FfmpegLine :=
  [.silence 2 (Rat.divInt 1 5),
   .blackframe 11 1 (Rat.divInt 182 100), .blackframe 11 2 (Rat.divInt 184 100),
   .blackframe 11 3 (Rat.divInt 186 100), .blackframe 11 4 (Rat.divInt 188 100),
   .blackframe 11 5 (Rat.divInt 190 100)]

/-- C10 counterexample fixture: one silence far away from the measurements,
and two newsline (filter 22) measurements whose frame numbers appear out of
order in the line sequence. -/
def c10Lines : List FfmpegLine :=
  [.silence 10 1, .blackframe 22 10 20, .blackframe 22 5 (Rat.divInt 201 10)]

/-! ### Claim theorems (decidable evaluations) -/

/-- C1: the claim states that a blackframe measurement is kept for grouping
iff its time lies in a silence interval of duration at least
`strategy.minSilenceSeconds` (seconds).  In `c1Lines` the only silence lasts
0.2 s, below the black-logo strategy's 1.5 s minimum, so the claim demands
that every measurement be discarded and the detector return `[]`.  The code
keeps all five measurements and returns a black-logo candidate, because
JavaScript parses `head(...) ?? 0 >= minSilenceSeconds` as
`head(...) ?? (0 >= minSilenceSeconds)`: any measurement inside a silence of
nonzero duration passes the gate regardless of `minSilenceSeconds`. -/
theorem detect_keeps_measurement_in_short_silence :
    findSilences c1Lines = [{ startTime := 1800, endTime := 2000 }] ∧
    detectPotentialBoundaries c1Lines =
      [{ start := 1820, stop := 1900, firstFrame := 1, lastFrame := 5 }] := by
  constructor <;> decide

/-- C2: for the smart-trim fixture request `start = 144311`, `end = 744077`
with keyframes 146146 and 742742 around them, the orchestrator starts,
besides the three probes, exactly the mid copy (span 596596 ms), the start
cap (1835 ms) and the end cap (1335 ms), and pipes the three-entry concat
plan, in order start-cap, mid, end-cap, serialized line by line. -/
theorem smartTrim_three_artifacts :
    postProcessRecording 0 envFixture fixtureInput fixtureOutput 144311 744077 true [] =
      some [expectedStreamCountProbe,
            expectedKeyframeProbe (Rat.divInt 139311 1000) (Rat.divInt 739077 1000),
            expectedBitrateProbe,
            expectedMidCopy,
            expectedStartCap (Rat.divInt 144311 1000) (Rat.divInt 1835 1000),
            expectedEndCap,
            expectedConcat
              ["file \x27inputPathWithThumbnail.mp4.smarttrim.start\x27", "\n",
               "file \x27inputPathWithThumbnail.mp4.smarttrim.mid\x27", "\n",
               "file \x27inputPathWithThumbnail.mp4.smarttrim.end\x27", "\n"],
            expectedRestore] := by
  decide

/-- C3: the claim states that a cap too short to encode as a viable clip is,
like a zero-duration cap, never rendered and never listed in the concat plan;
the repository's own test (`should not re-render a smarttrim fragment that is
too short to produce a viable video clip`) asserts a skipped start cap and a
two-entry plan for `start = 146130` (16 ms before the first keyframe).  The
code only skips spans that are exactly zero: here it renders a 16 ms start
cap and pipes a three-entry plan. -/
theorem smartTrim_renders_16ms_cap :
    postProcessRecording 0 envFixture fixtureInput fixtureOutput 146130 744077 true [] =
      some [expectedStreamCountProbe,
            expectedKeyframeProbe (Rat.divInt 141130 1000) (Rat.divInt 739077 1000),
            expectedBitrateProbe,
            expectedMidCopy,
            expectedStartCap (Rat.divInt 146130 1000) (Rat.divInt 16 1000),
            expectedEndCap,
            expectedConcat
              ["file \x27inputPathWithThumbnail.mp4.smarttrim.start\x27", "\n",
               "file \x27inputPathWithThumbnail.mp4.smarttrim.mid\x27", "\n",
               "file \x27inputPathWithThumbnail.mp4.smarttrim.end\x27", "\n"],
            expectedRestore] := by
  decide

/-- C10 counterexample: the claim states that every feature produced by the
blackframe grouping has non-decreasing frame numbers, in particular
`firstFrame ≤ lastFrame`.  On `c10Lines` (frame 10 before frame 5 in line
order, same filter) the detector produces a feature with `firstFrame = 10`,
`lastFrame = 5`: the grouping condition only bounds
`frame.frameNum - lastFrame.frameNum` from above, and the sort comparator
reads the nonexistent key `frame` (the records carry `frameNum`), so nothing
orders frames within a filter. -/
theorem feature_with_decreasing_frames :
    (detectPotentialBoundaries c10Lines).all (fun f => decide (f.firstFrame ≤ f.lastFrame))
        = false ∧
    detectPotentialBoundaries c10Lines =
      [{ start := 20000, stop := 20100, firstFrame := 10, lastFrame := 5 }] := by
  constructor <;> decide

/-- C9: `calculateScaleWidth` is always even (it is a rounded value doubled),
and at the full frame width it is the full frame width. -/
theorem calculateScaleWidth_even_and_fixed (w : ℕ) (hw : 0 < w) :
    Even (calculateScaleWidth w) ∧
    calculateScaleWidth FULL_CROP_WIDTH = (FULL_CROP_WIDTH : ℤ) := by
  refine ⟨⟨jsRound (qdiv (qdiv ((FULL_CROP_WIDTH * FULL_CROP_WIDTH : ℕ) : ℚ) (w : ℚ)) 2), ?_⟩,
    by decide⟩
  exact mul_two _

/-- Witness for C9 at `w = 3`. -/
theorem calculateScaleWidth_even_and_fixed_witness :
    Even (calculateScaleWidth 3) ∧ calculateScaleWidth FULL_CROP_WIDTH = (FULL_CROP_WIDTH : ℤ) :=
  calculateScaleWidth_even_and_fixed 3 (by decide)

/-! ### The fallback chain (C4, C8) -/

theorem findSilences_eq_nil (ffmpegLines : List FfmpegLine)
    (h : ∀ l ∈ ffmpegLines, isSilenceLine l = false) : findSilences ffmpegLines = [] := by
  rw [findSilences, List.filterMap_eq_nil_iff]
  intro l hl
  cases l with
  | silence e d => exact absurd (h _ hl) (by simp [isSilenceLine])
  | blackframe f n t => rfl
  | other => rfl

/-- C8: when the differencing pass's lines contain no silence-detection
match, the detector returns the empty sequence at once and evaluates no
strategy's grouping (the evaluation trace is empty). -/
theorem detect_empty_when_no_silences (ffmpegLines : List FfmpegLine)
    (h : ∀ l ∈ ffmpegLines, isSilenceLine l = false) :
    detectPotentialBoundariesTraced ffmpegLines = ([], []) := by
  rw [detectPotentialBoundariesTraced, findSilences_eq_nil ffmpegLines h]
  rfl

/-- Witness for C8: a blackframe-only line list. -/
theorem detect_empty_when_no_silences_witness :
    detectPotentialBoundariesTraced [FfmpegLine.blackframe 11 3 2, FfmpegLine.other] = ([], []) :=
  detect_empty_when_no_silences _ (by decide)

theorem boundaryLoop_first_nonEmpty (ffmpegLines : List FfmpegLine) (tree : IntervalTree)
    (pre : List FrameSearchStrategy) (s : FrameSearchStrategy) (post : List FrameSearchStrategy)
    (hpre : ∀ s₂ ∈ pre, findBlackframeGroups ffmpegLines s₂ tree = [])
    (hs : findBlackframeGroups ffmpegLines s tree ≠ []) :
    boundaryLoop ffmpegLines tree (pre ++ s :: post) =
      (findBlackframeGroups ffmpegLines s tree, pre.map (fun s₂ => s₂.name) ++ [s.name]) := by
  induction pre with
  | nil =>
    rw [List.nil_append, boundaryLoop]
    simp only [List.isEmpty_eq_true]
    rw [if_neg hs]
    simp
  | cons p pre ih =>
    have hp : findBlackframeGroups ffmpegLines p tree = [] := hpre p (List.mem_cons_self p pre)
    rw [List.cons_append, boundaryLoop]
    simp only [hp, List.isEmpty_nil, if_true]
    rw [ih (fun s₂ h₂ => hpre s₂ (List.mem_cons_of_mem p h₂))]
    simp

theorem boundaryLoop_all_empty (ffmpegLines : List FfmpegLine) (tree : IntervalTree)
    (strats : List FrameSearchStrategy)
    (h : ∀ s ∈ strats, findBlackframeGroups ffmpegLines s tree = []) :
    boundaryLoop ffmpegLines tree strats = ([], strats.map (fun s => s.name)) := by
  induction strats with
  | nil => rfl
  | cons s strats ih =>
    have hs : findBlackframeGroups ffmpegLines s tree = [] := h s (List.mem_cons_self s strats)
    rw [boundaryLoop]
    simp only [hs, List.isEmpty_nil, if_true]
    rw [ih (fun s₂ h₂ => h s₂ (List.mem_cons_of_mem s h₂))]
    simp

/-- C4: once silences exist, the detector evaluates the fixed strategies in
priority order and returns the candidates of the first strategy whose
grouping is non-empty, having evaluated exactly the strategies up to and
including it; when every strategy's grouping is empty it returns the empty
sequence, having evaluated the whole chain. -/
theorem detectPotentialBoundaries_fallback (ffmpegLines : List FfmpegLine)
    (hsil : findSilences ffmpegLines ≠ []) :
    (∀ pre s post, BOUNDARY_STRATEGIES = pre ++ s :: post →
      (∀ s₂ ∈ pre,
        findBlackframeGroups ffmpegLines s₂ (buildCandidateWindows (findSilences ffmpegLines))
          = []) →
      findBlackframeGroups ffmpegLines s (buildCandidateWindows (findSilences ffmpegLines))
          ≠ [] →
      detectPotentialBoundariesTraced ffmpegLines =
        (findBlackframeGroups ffmpegLines s (buildCandidateWindows (findSilences ffmpegLines)),
         pre.map (fun s₂ => s₂.name) ++ [s.name])) ∧
    ((∀ s ∈ BOUNDARY_STRATEGIES,
        findBlackframeGroups ffmpegLines s (buildCandidateWindows (findSilences ffmpegLines))
          = []) →
      detectPotentialBoundariesTraced ffmpegLines =
        ([], BOUNDARY_STRATEGIES.map (fun s => s.name))) := by
  have hEmpty : (findSilences ffmpegLines).isEmpty = false := by
    simpa [List.isEmpty_eq_false] using hsil
  constructor
  · intro pre s post hdec hpre hs
    rw [detectPotentialBoundariesTraced]
    simp only [hEmpty, Bool.false_eq_true, if_false]
    rw [hdec]
    exact boundaryLoop_first_nonEmpty _ _ pre s post hpre hs
  · intro hall
    rw [detectPotentialBoundariesTraced]
    simp only [hEmpty, Bool.false_eq_true, if_false]
    exact boundaryLoop_all_empty _ _ _ hall

/-- C4 witness fixture: one 0.3 s silence and five consecutive black-logo
measurements inside it, so the first strategy already yields a candidate. -/
def c4Lines : List FfmpegLine :=
  [.silence 3 (Rat.divInt 3 10),
   .blackframe 11 1 (Rat.divInt 280 100), .blackframe 11 2 (Rat.divInt 282 100),
   .blackframe 11 3 (Rat.divInt 284 100), .blackframe 11 4 (Rat.divInt 286 100),
   .blackframe 11 5 (Rat.divInt 288 100)]

/-- Witness for C4: on `c4Lines` the first strategy (black-logo) produces a
candidate, all later strategies are unevaluated, and the result is black-logo's
single feature. -/
theorem detectPotentialBoundaries_fallback_witness :
    findSilences c4Lines ≠ [] ∧
    detectPotentialBoundariesTraced c4Lines =
      ([{ start := 2800, stop := 2880, firstFrame := 1, lastFrame := 5 }], ["black-logo"]) := by
  refine ⟨by decide, ?_⟩
  have h := (detectPotentialBoundaries_fallback c4Lines (by decide)).1 []
    { name := "black-logo", filters := [11], minSilenceSeconds := some (Rat.divInt 3 2),
      minFrames := 5 }
    [ { name := "white-logo", filters := [13], minSilenceSeconds := some (Rat.divInt 3 2),
        minFrames := 5 },
      { name := "white-borders-logo", filters := [15],
        minSilenceSeconds := some (Rat.divInt 3 2), minFrames := 5 },
      { name := "black-logo-ai-subtitles", filters := [17],
        minSilenceSeconds := some (Rat.divInt 3 2), minFrames := 5 },
      { name := "black-no-logo-ai-subtitles", filters := [19],
        minSilenceSeconds := some (Rat.divInt 3 2), minFrames := 5 },
      { name := "no-logo", filters := [20], minSilenceSeconds := some (Rat.divInt 1 10),
        minFrames := 3 },
      { name := "newsline", filters := [22], minSilenceSeconds := some 0, minFrames := 1 } ]
    rfl (by intro s₂ h₂; cases h₂) (by decide)
  exact h.trans (by decide)

/-! ### Keyframe boundary selection (C6) -/

theorem find?_eq_head?_filter {α : Type} (p : α → Bool) (l : List α) :
    l.find? p = (l.filter p).head? := by
  induction l with
  | nil => rfl
  | cons x xs ih =>
    by_cases h : p x
    · rw [List.find?_cons_of_pos _ h, List.filter_cons_of_pos h]
      rfl
    · rw [List.find?_cons_of_neg _ (by simpa using h), List.filter_cons_of_neg (by simpa using h),
        ih]

theorem reverse_find?_eq_getLast?_filter {α : Type} (p : α → Bool) (l : List α) :
    l.reverse.find? p = (l.filter p).getLast? := by
  rw [find?_eq_head?_filter, List.filter_reverse, List.head?_reverse]

/-- The spec's first selected keyframe: the first probed timestamp `t` with
`t * 1000 ≥ start`. -/
def firstKeyframeAtOrAfter (frames : List ℚ) (start : ℚ) : Option ℚ :=
  (frames.filter fun t => decide (start ≤ t * 1000)).head?

/-- The spec's last selected keyframe: the last probed timestamp `t` with
`t * 1000 ≤ end`. -/
def lastKeyframeAtOrBefore (frames : List ℚ) (stop : ℚ) : Option ℚ :=
  (frames.filter fun t => decide (t * 1000 ≤ stop)).getLast?

/-- C6: `getKeyframeBoundaries` returns exactly the pair (first keyframe at
or after `start`, last keyframe at or before `end`), in milliseconds; it is
`none` (the thrown `TypeError`) precisely when no probed keyframe is at or
after `start` or none is at or before `end`; and in the smart-trim path that
failure aborts the whole request (`postProcessRecording` is `none`). -/
theorem getKeyframeBoundaries_spec (frames : List ℚ) (start stop : ℚ) :
    (getKeyframeBoundaries frames start stop =
      match firstKeyframeAtOrAfter frames start, lastKeyframeAtOrBefore frames stop with
      | some f, some l => some (f * 1000, l * 1000)
      | _, _ => none) ∧
    (getKeyframeBoundaries frames start stop = none ↔
      (∀ t ∈ frames, t * 1000 < start) ∨ (∀ t ∈ frames, stop < t * 1000)) ∧
    (∀ (threadLimit : ℤ) (env : ProbeEnv) (inputPath outputPath : String),
      env.keyframes = frames →
      getKeyframeBoundaries frames start stop = none →
      postProcessRecording threadLimit env inputPath outputPath start stop true [] = none) := by
  have e1 : (fun t => decide (start ≤ qmul t 1000)) = fun t : ℚ => decide (start ≤ t * 1000) := by
    funext t
    simp [qmul_eq]
  have e2 : (fun t => decide (qmul t 1000 ≤ stop)) = fun t : ℚ => decide (t * 1000 ≤ stop) := by
    funext t
    simp [qmul_eq]
  have hmain : getKeyframeBoundaries frames start stop =
      match firstKeyframeAtOrAfter frames start, lastKeyframeAtOrBefore frames stop with
      | some f, some l => some (f * 1000, l * 1000)
      | _, _ => none := by
    rw [getKeyframeBoundaries, e1, e2, find?_eq_head?_filter, reverse_find?_eq_getLast?_filter]
    rw [firstKeyframeAtOrAfter, lastKeyframeAtOrBefore]
    rcases (frames.filter fun t => decide (start ≤ t * 1000)).head? with _ | f <;>
      rcases (frames.filter fun t => decide (t * 1000 ≤ stop)).getLast? with _ | l <;>
      simp [qmul_eq]
  refine ⟨hmain, ?_, ?_⟩
  · rw [hmain, firstKeyframeAtOrAfter, lastKeyframeAtOrBefore]
    rcases hf : (frames.filter fun t => decide (start ≤ t * 1000)).head? with _ | f <;>
      rcases hl : (frames.filter fun t => decide (t * 1000 ≤ stop)).getLast? with _ | l
    · refine iff_of_true rfl (Or.inl fun t ht => ?_)
      rw [List.head?_eq_none_iff, List.filter_eq_nil_iff] at hf
      simpa [not_le] using hf t ht
    · refine iff_of_true rfl (Or.inl fun t ht => ?_)
      rw [List.head?_eq_none_iff, List.filter_eq_nil_iff] at hf
      simpa [not_le] using hf t ht
    · refine iff_of_true rfl (Or.inr fun t ht => ?_)
      rw [List.getLast?_eq_none_iff, List.filter_eq_nil_iff] at hl
      simpa [not_le] using hl t ht
    · refine iff_of_false (by simp) ?_
      have hfm := List.mem_filter.mp (show f ∈ frames.filter fun t => decide (start ≤ t * 1000) by
        obtain ⟨rest, hrest⟩ := List.head?_eq_some_iff.mp hf
        rw [hrest]
        exact List.mem_cons_self f rest)
      have hlm := List.mem_filter.mp
        (List.mem_of_mem_getLast? (show l ∈ (frames.filter fun t => decide (t * 1000 ≤ stop)).getLast? from hl))
      rintro (hall | hall)
      · exact absurd (hall f hfm.1) (by simpa [not_lt] using hfm.2)
      · exact absurd (hall l hlm.1) (by simpa [not_lt] using hlm.2)
  · intro threadLimit env inputPath outputPath henv hnone
    rw [postProcessRecording]
    simp only [henv, hnone, List.isEmpty_nil, Bool.and_true]
    rfl

/-- Witness for C6: with no probed keyframes the selection fails and the
smart-trim request aborts. -/
theorem getKeyframeBoundaries_spec_witness :
    getKeyframeBoundaries [] 5 5 = none ∧
    postProcessRecording 0 { streamCount := 2, keyframes := [], bitrate := 0 }
      "in.mp4" "out.mp4" 5 5 true [] = none := by
  have h := getKeyframeBoundaries_spec [] 5 5
  have h0 : getKeyframeBoundaries [] 5 5 = none := h.2.1.mpr (Or.inl (by simp))
  exact ⟨h0, h.2.2 0 _ "in.mp4" "out.mp4" rfl h0⟩

/-! ### The direct path (C7) -/

theorem infix_here {α : Type} (t rest : List α) : List.IsInfix t (t ++ rest) :=
  ⟨[], rest, by simp⟩

theorem infix_append_left {α : Type} (l₁ : List α) {t l₂ : List α}
    (h : List.IsInfix t l₂) : List.IsInfix t (l₁ ++ l₂) := by
  obtain ⟨s, u, rfl⟩ := h
  exact ⟨l₁ ++ s, u, by simp⟩

/-- Segment decomposition of the direct path's argument list when no crop
samples are present. -/
theorem postProcessArgs_decomp (threadLimit : ℤ) (inputPath outputPath : String)
    (start stop : ℚ) (hasThumbnail : Bool) :
    getFfmpegPostProcessArguments threadLimit inputPath outputPath start stop [] hasThumbnail =
      ([Tok.str "-y"]
        ++ (if 0 < threadLimit then [Tok.str "-threads", Tok.num (threadLimit : ℚ)] else [])
        ++ [Tok.str "-i", Tok.path inputPath]
        ++ (if hasThumbnail then [Tok.str "-i", Tok.path inputPath] else []))
      ++ ([Tok.str "-ss", Tok.num (start / 1000)]
        ++ ((if stop ≠ 0 then [Tok.str "-to", Tok.num (stop / 1000)] else [])
          ++ ([Tok.str "-codec", Tok.str "copy"]
            ++ ((if hasThumbnail then
                  [Tok.str "-filter_complex",
                   Tok.filterExpr { cropExprs := none, thumbnailShiftSec := some (start / 1000) }]
                 else [])
              ++ ([Tok.str "-map", Tok.str "0:0", Tok.str "-map", Tok.str "0:1"]
                ++ ((if hasThumbnail then
                      [Tok.str "-map", Tok.str "[tn]", Tok.str "-codec:v:1", Tok.str "mjpeg",
                       Tok.str "-disposition:v:1", Tok.str "attached_pic"]
                     else [])
                  ++ [Tok.str "-map_metadata", Tok.str "0", Tok.str "-f", Tok.str "mp4",
                      Tok.path outputPath])))))) := by
  cases hasThumbnail <;>
    simp [getFfmpegPostProcessArguments, generateFilterChain, qdiv_eq, List.append_assoc]

/-- C7 counterexample: for a request with `smartTrim` off and no crop
samples against an input whose probed stream count is 3 (an embedded
thumbnail), the single render invocation's arguments do contain the
filter-graph flag `-filter_complex` (carrying the thumbnail PTS shift),
contradicting the claim's "no filter-graph argument". -/
theorem direct_path_filter_complex_with_thumbnail :
    Tok.str "-filter_complex" ∈
      getFfmpegPostProcessArguments 0 "inputPathWithThumbnail.mp4" "outputPath.mp4"
        124687 367110 [] true ∧
    postProcessRecording 0 { streamCount := 3, keyframes := [], bitrate := 0 }
        "inputPathWithThumbnail.mp4" "outputPath.mp4" 124687 367110 false [] =
      some [{ cmd := "ffprobe", args := getFfprobeArguments "inputPathWithThumbnail.mp4",
              stdin := none },
            { cmd := "ffmpeg",
              args := getFfmpegPostProcessArguments 0 "inputPathWithThumbnail.mp4"
                "outputPath.mp4" 124687 367110 [] true,
              stdin := none }] := by
  constructor <;> decide

/-- C7 as amended: for every request with `smartTrim` off and no crop
samples, exactly one render invocation occurs besides the stream-count probe;
its arguments contain `-ss start/1000`, `-to end/1000` when `end` is nonzero,
and the stream-copy codec flags; and — the amendment — the filter-graph
argument is absent exactly when the probed stream count shows no embedded
thumbnail (at most 2 streams). -/
theorem direct_path_single_render (threadLimit : ℤ) (env : ProbeEnv)
    (inputPath outputPath : String) (start stop : ℚ) :
    postProcessRecording threadLimit env inputPath outputPath start stop false [] =
      some [{ cmd := "ffprobe", args := getFfprobeArguments inputPath, stdin := none },
            { cmd := "ffmpeg",
              args := getFfmpegPostProcessArguments threadLimit inputPath outputPath start stop
                [] (decide (2 < env.streamCount)),
              stdin := none }] ∧
    List.IsInfix [Tok.str "-ss", Tok.num (start / 1000)]
      (getFfmpegPostProcessArguments threadLimit inputPath outputPath start stop []
        (decide (2 < env.streamCount))) ∧
    (stop ≠ 0 →
      List.IsInfix [Tok.str "-to", Tok.num (stop / 1000)]
        (getFfmpegPostProcessArguments threadLimit inputPath outputPath start stop []
          (decide (2 < env.streamCount)))) ∧
    List.IsInfix [Tok.str "-codec", Tok.str "copy"]
      (getFfmpegPostProcessArguments threadLimit inputPath outputPath start stop []
        (decide (2 < env.streamCount))) ∧
    (env.streamCount ≤ 2 →
      Tok.str "-filter_complex" ∉
        getFfmpegPostProcessArguments threadLimit inputPath outputPath start stop []
          (decide (2 < env.streamCount))) := by
  refine ⟨rfl, ?_, ?_, ?_, ?_⟩
  · rw [postProcessArgs_decomp]
    exact infix_append_left _ (infix_here _ _)
  · intro hstop
    rw [postProcessArgs_decomp]
    refine infix_append_left _ (infix_append_left _ ?_)
    rw [if_pos hstop]
    exact infix_here _ _
  · rw [postProcessArgs_decomp]
    exact infix_append_left _ (infix_append_left _ (infix_append_left _ (infix_here _ _)))
  · intro hsc
    have hb : decide (2 < env.streamCount) = false := by
      simp [Nat.not_lt.mpr hsc]
    rw [postProcessArgs_decomp, hb]
    by_cases ht : 0 < threadLimit <;> by_cases hs : stop ≠ 0 <;> simp [ht, hs]

/-- Witness for C7 as amended, at a thumbnail-less input. -/
theorem direct_path_single_render_witness :
    List.IsInfix [Tok.str "-to", Tok.num ((367110 : ℚ) / 1000)]
      (getFfmpegPostProcessArguments 0 "in.mp4" "out.mp4" 124687 367110 []
        (decide (2 < ({ streamCount := 2, keyframes := [], bitrate := 0 } : ProbeEnv).streamCount))) ∧
    Tok.str "-filter_complex" ∉
      getFfmpegPostProcessArguments 0 "in.mp4" "out.mp4" 124687 367110 []
        (decide (2 < ({ streamCount := 2, keyframes := [], bitrate := 0 } : ProbeEnv).streamCount)) := by
  have h := direct_path_single_render 0 { streamCount := 2, keyframes := [], bitrate := 0 }
    "in.mp4" "out.mp4" 124687 367110
  exact ⟨h.2.2.1 (by norm_num), h.2.2.2.2 (by norm_num)⟩

/-! ### The time-keyed filter compiler (C5) -/

/-- The spec's step function: the width of the greatest sample whose `time`
is at most `T` (the samples being in ascending time order), the full frame
width when `T` is below every sample time, and the sample's default when its
`width` is absent. -/
def latestSampleWidth (T : ℚ) (cropParameters : List CropParameters) : ℕ :=
  match (cropParameters.filter fun s => decide (s.time ≤ T)).getLast? with
  | some s => s.width.getD FULL_CROP_WIDTH
  | none => FULL_CROP_WIDTH

theorem generateTimeSequence_eval_aux (calcValue : ℕ → ℤ) :
    ∀ cropParameters : List CropParameters,
      cropParameters.Chain' (fun a b => a.time < b.time) →
      (∀ s ∈ cropParameters, 0 ≤ s.time) →
      ∀ T : ℚ, 0 ≤ T →
        evalTimeExpr (T / 1000) (generateTimeSequence calcValue cropParameters) =
          calcValue (latestSampleWidth T cropParameters) := by
  intro crop
  induction crop using List.reverseRecOn with
  | nil => intro _ _ T _; rfl
  | append_singleton l a ih =>
    intro hsort hpos T hT
    have hrev : (l ++ [a]).reverse = a :: l.reverse := by simp
    rw [generateTimeSequence, hrev, generateTimeSequenceRev]
    by_cases h0 : a.time = 0
    · rw [if_pos h0]
      have hl : l = [] := by
        rcases hnil : l with _ | ⟨x, xs⟩
        · rfl
        · exfalso
          rw [hnil] at hsort hpos
          obtain ⟨h₁, h₂, h₃⟩ := List.chain'_append.mp hsort
          have hglast : (x :: xs).getLast? = some ((x :: xs).getLast (by simp)) :=
            List.getLast?_eq_getLast _ (by simp)
          have hxa := h₃ _ hglast a rfl
          have hmem : (x :: xs).getLast (by simp) ∈ x :: xs := List.getLast_mem _
          have hge := hpos _ (List.mem_append_left _ hmem)
          rw [h0] at hxa
          exact absurd hxa (not_lt.mpr hge)
      subst hl
      show calcValue (a.width.getD FULL_CROP_WIDTH) = calcValue (latestSampleWidth T ([] ++ [a]))
      congr 1
      have hfil : List.filter (fun s => decide (s.time ≤ T)) [a] = [a] := by
        simp [h0, hT]
      rw [latestSampleWidth, List.nil_append, hfil]
      rfl
    · rw [if_neg h0]
      rw [evalTimeExpr]
      have hiff : qdiv a.time 1000 ≤ T / 1000 ↔ a.time ≤ T := by
        rw [qdiv_eq]
        exact div_le_div_iff_of_pos_right (by norm_num)
      by_cases hle : a.time ≤ T
      · rw [if_pos (hiff.mpr hle)]
        congr 1
        have hfil : List.filter (fun s => decide (s.time ≤ T)) [a] = [a] := by simp [hle]
        rw [latestSampleWidth, List.filter_append, hfil, List.getLast?_concat]
      · rw [if_neg fun hcon => hle (hiff.mp hcon)]
        have hgen : generateTimeSequenceRev calcValue l.reverse
            = generateTimeSequence calcValue l := rfl
        obtain ⟨hs1, _, _⟩ := List.chain'_append.mp hsort
        rw [hgen, ih hs1 (fun s hs => hpos s (List.mem_append_left _ hs)) T hT]
        congr 1
        have hfil : List.filter (fun s => decide (s.time ≤ T)) [a] = [] := by simp [hle]
        rw [latestSampleWidth, latestSampleWidth, List.filter_append, hfil, List.append_nil]

/-- C5: for every non-empty sample list in (strictly) ascending time order
with non-negative times, and every derived quantity `calcValue`, the compiled
conditional expression evaluates at any queried time `T` milliseconds
(`t = T / 1000` seconds in the filter graph) to `calcValue` of the width of
the greatest sample whose time is at most `T` — in particular to the last
sample's value when `T` exceeds all sample times — and to `calcValue` of the
full frame width when `T` is below every sample time. -/
theorem generateTimeSequence_eval (calcValue : ℕ → ℤ) (cropParameters : List CropParameters)
    (hne : cropParameters ≠ [])
    (hsort : cropParameters.Chain' (fun a b => a.time < b.time))
    (hpos : ∀ s ∈ cropParameters, 0 ≤ s.time)
    (T : ℚ) (hT : 0 ≤ T) :
    evalTimeExpr (T / 1000) (generateTimeSequence calcValue cropParameters) =
      calcValue (latestSampleWidth T cropParameters) :=
  generateTimeSequence_eval_aux calcValue cropParameters hsort hpos T hT

/-- C5 witness fixture: the repository test's two-sample crop schedule. -/
def c5Crop : List CropParameters :=
  [{ time := 156800, width := some 1728 }, { time := 260000, width := some 1920 }]

/-- Witness for C5 at `T = 200000` ms: the first sample is in effect, so the
scale-width expression evaluates to `calculateScaleWidth 1728 = 2134`. -/
theorem generateTimeSequence_eval_witness :
    evalTimeExpr ((200000 : ℚ) / 1000) (generateTimeSequence calculateScaleWidth c5Crop)
      = 2134 := by
  have h := generateTimeSequence_eval calculateScaleWidth c5Crop (by decide)
    ((List.chain'_cons).mpr ⟨by decide, List.chain'_singleton _⟩)
    (by decide) 200000 (by decide)
  rw [h]
  decide

/-! ### The grouping invariant (C10) -/

theorem filter_insertByFilterNum (x : BlackframeOutput) (l : List BlackframeOutput) (f : ℕ) :
    (insertByFilterNum x l).filter (fun m => m.filterNum == f) =
      if x.filterNum == f then x :: l.filter (fun m => m.filterNum == f)
      else l.filter (fun m => m.filterNum == f) := by
  induction l with
  | nil =>
    rw [insertByFilterNum]
    by_cases hx : x.filterNum == f <;> simp [hx]
  | cons y ys ih =>
    rw [insertByFilterNum]
    by_cases hy : y.filterNum < x.filterNum
    · rw [if_pos hy]
      by_cases hx : x.filterNum == f
      · have hxf : x.filterNum = f := by simpa using hx
        have hyf : (y.filterNum == f) = false := by
          have hne : y.filterNum ≠ f := by omega
          simpa using hne
        simp [List.filter_cons, hyf, ih, hx]
      · simp [List.filter_cons, ih, hx]
    · rw [if_neg hy]
      by_cases hx : x.filterNum == f <;> simp [List.filter_cons, hx]

theorem filter_sortByFilterNum (l : List BlackframeOutput) (f : ℕ) :
    (sortByFilterNum l).filter (fun m => m.filterNum == f)
      = l.filter (fun m => m.filterNum == f) := by
  induction l with
  | nil => rfl
  | cons x xs ih =>
    rw [sortByFilterNum, filter_insertByFilterNum, List.filter_cons]
    by_cases hx : x.filterNum == f <;> simp [hx, ih]

theorem insertByFilterNum_perm (x : BlackframeOutput) (l : List BlackframeOutput) :
    List.Perm (insertByFilterNum x l) (x :: l) := by
  induction l with
  | nil => rfl
  | cons y ys ih =>
    rw [insertByFilterNum]
    by_cases hy : y.filterNum < x.filterNum
    · rw [if_pos hy]
      exact (ih.cons y).trans (List.Perm.swap x y ys)
    · rw [if_neg hy]

theorem sortByFilterNum_perm (l : List BlackframeOutput) :
    List.Perm (sortByFilterNum l) l := by
  induction l with
  | nil => rfl
  | cons x xs ih => exact (insertByFilterNum_perm x (sortByFilterNum xs)).trans (ih.cons x)

theorem groupRuns_head {α : Type} (rel : α → α → Bool) (x : α) (xs : List α) :
    ∃ t gs, groupRuns rel (x :: xs) = (x :: t) :: gs := by
  cases xs with
  | nil => exact ⟨[], [], rfl⟩
  | cons y rest =>
    rcases hgr : groupRuns rel (y :: rest) with _ | ⟨g, gs⟩
    · exact ⟨[], [], by simp [groupRuns, hgr]⟩
    · by_cases hrel : rel x y
      · exact ⟨g, gs, by simp [groupRuns, hgr, hrel]⟩
      · exact ⟨[], g :: gs, by simp [groupRuns, hgr, hrel]⟩

theorem groupRuns_ne_nil {α : Type} (rel : α → α → Bool) (l : List α) :
    ∀ g ∈ groupRuns rel l, g ≠ [] := by
  induction l with
  | nil => intro g hg; cases hg
  | cons x xs ih =>
    intro g hg
    cases xs with
    | nil =>
      rw [show groupRuns rel [x] = [[x]] from rfl] at hg
      rw [List.mem_singleton.mp hg]
      simp
    | cons y rest =>
      rcases hgr : groupRuns rel (y :: rest) with _ | ⟨g₀, gs⟩
      · simp only [groupRuns, hgr] at hg
        rw [List.mem_singleton.mp hg]
        simp
      · simp only [groupRuns, hgr] at hg
        by_cases hrel : rel x y
        · rw [if_pos hrel] at hg
          rcases List.mem_cons.mp hg with rfl | hmem
          · simp
          · exact ih g (by rw [hgr]; exact List.mem_cons_of_mem _ hmem)
        · rw [if_neg hrel] at hg
          rcases List.mem_cons.mp hg with rfl | hmem
          · simp
          · exact ih g (by rw [hgr]; exact hmem)

theorem groupRuns_sublist {α : Type} (rel : α → α → Bool) (l : List α) :
    ∀ g ∈ groupRuns rel l, List.Sublist g l := by
  induction l with
  | nil => intro g hg; cases hg
  | cons x xs ih =>
    intro g hg
    cases xs with
    | nil =>
      rw [show groupRuns rel [x] = [[x]] from rfl] at hg
      rw [List.mem_singleton.mp hg]
    | cons y rest =>
      rcases hgr : groupRuns rel (y :: rest) with _ | ⟨g₀, gs⟩
      · simp only [groupRuns, hgr] at hg
        rw [List.mem_singleton.mp hg]
        exact List.Sublist.cons₂ x (List.nil_sublist _)
      · simp only [groupRuns, hgr] at hg
        by_cases hrel : rel x y
        · rw [if_pos hrel] at hg
          rcases List.mem_cons.mp hg with rfl | hmem
          · exact List.Sublist.cons₂ x (ih g₀ (by rw [hgr]; exact List.mem_cons_self _ _))
          · exact List.Sublist.cons x (ih g (by rw [hgr]; exact List.mem_cons_of_mem _ hmem))
        · rw [if_neg hrel] at hg
          rcases List.mem_cons.mp hg with rfl | hmem
          · exact List.Sublist.cons₂ x (List.nil_sublist _)
          · exact List.Sublist.cons x (ih g (by rw [hgr]; exact hmem))

theorem groupRuns_chain {α : Type} (rel : α → α → Bool) (l : List α) :
    ∀ g ∈ groupRuns rel l, g.Chain' (fun a b => rel a b = true) := by
  induction l with
  | nil => intro g hg; cases hg
  | cons x xs ih =>
    intro g hg
    cases xs with
    | nil =>
      rw [show groupRuns rel [x] = [[x]] from rfl] at hg
      rw [List.mem_singleton.mp hg]
      exact List.chain'_singleton x
    | cons y rest =>
      rcases hgr : groupRuns rel (y :: rest) with _ | ⟨g₀, gs⟩
      · simp only [groupRuns, hgr] at hg
        rw [List.mem_singleton.mp hg]
        exact List.chain'_singleton x
      · obtain ⟨t, gs₂, hhead⟩ := groupRuns_head rel y rest
        rw [hgr] at hhead
        obtain ⟨hg₀, hgs₂⟩ : g₀ = y :: t ∧ gs = gs₂ := by
          injection hhead with h1 h2
          exact ⟨h1, h2⟩
        simp only [groupRuns, hgr] at hg
        by_cases hrel : rel x y
        · rw [if_pos hrel] at hg
          rcases List.mem_cons.mp hg with rfl | hmem
          · have hc₀ := ih g₀ (by rw [hgr]; exact List.mem_cons_self _ _)
            rw [hg₀] at hc₀ ⊢
            exact List.chain'_cons.mpr ⟨hrel, hc₀⟩
          · exact ih g (by rw [hgr]; exact List.mem_cons_of_mem _ hmem)
        · rw [if_neg hrel] at hg
          rcases List.mem_cons.mp hg with rfl | hmem
          · exact List.chain'_singleton x
          · exact ih g (by rw [hgr]; exact hmem)

theorem chain'_filterNum_eq (strategy : FrameSearchStrategy) :
    ∀ g : List BlackframeOutput,
      g.Chain' (fun a b => groupRel strategy a b = true) →
      ∀ m ∈ g, m.filterNum = (g.headD defaultBlackframe).filterNum := by
  intro g
  induction g with
  | nil => intro _ m hm; cases hm
  | cons x g ih =>
    intro hc m hm
    rw [List.headD_cons]
    rcases List.mem_cons.mp hm with rfl | hm
    · rfl
    · cases g with
      | nil => cases hm
      | cons y g₂ =>
        obtain ⟨hxy, hc₂⟩ := List.chain'_cons.mp hc
        have hyx : y.filterNum = x.filterNum := by
          unfold groupRel at hxy
          simp only [Bool.and_eq_true, decide_eq_true_eq] at hxy
          exact hxy.2
        have hm2 := ih hc₂ m hm
        rw [List.headD_cons] at hm2
        rw [hm2, hyx]

theorem getLastD_mem_cons (x : BlackframeOutput) (l : List BlackframeOutput)
    (d : BlackframeOutput) : (x :: l).getLastD d ∈ x :: l := by
  rw [List.getLastD_eq_getLast?, List.getLast?_eq_getLast _ (by simp), Option.getD_some]
  exact List.getLast_mem _

theorem pairwise_headD_le_getLastD :
    ∀ g : List BlackframeOutput, g ≠ [] →
      g.Pairwise (fun a b => a.frameNum ≤ b.frameNum) →
      (g.headD defaultBlackframe).frameNum ≤ (g.getLastD defaultBlackframe).frameNum
  | [], h, _ => absurd rfl h
  | [_], _, _ => le_refl _
  | x :: y :: g, _, hp => by
    have hp₁ := List.pairwise_cons.mp hp
    have hmem : (y :: g).getLastD defaultBlackframe ∈ y :: g := getLastD_mem_cons y g _
    have h1 : x.frameNum ≤ ((y :: g).getLastD defaultBlackframe).frameNum := hp₁.1 _ hmem
    simpa [List.getLastD_eq_getLast?, List.getLast?_cons_cons] using h1

/-- C10 as amended: provided the parsed blackframe measurements of each
filter id occur in the line sequence in non-decreasing frame-number order (as
the differencing pass emits them), every feature produced by the blackframe
grouping arises from a non-empty run of at least `strategy.minFrames` kept
measurements sharing one filter id, with non-decreasing frame numbers and
consecutive gaps of at most `strategy.maxSkip ?? 1`; its `firstFrame`,
`lastFrame`, `start` and `stop` are the run's first and last frame numbers
and times, and `firstFrame ≤ lastFrame`. -/
theorem findBlackframeGroups_invariant (ffmpegLines : List FfmpegLine)
    (strategy : FrameSearchStrategy) (tree : IntervalTree)
    (horder : ∀ f : ℕ,
      ((parseBlackframes ffmpegLines).filter fun m => m.filterNum == f).Pairwise
        (fun a b => a.frameNum ≤ b.frameNum))
    (feature : DetectedFeature)
    (hf : feature ∈ findBlackframeGroups ffmpegLines strategy tree) :
    ∃ run : List BlackframeOutput,
      run ≠ [] ∧
      strategy.minFrames ≤ run.length ∧
      (∀ m ∈ run, m ∈ keptMeasurements ffmpegLines strategy tree) ∧
      (∀ m ∈ run, m.filterNum = (run.headD defaultBlackframe).filterNum) ∧
      run.Pairwise (fun a b => a.frameNum ≤ b.frameNum) ∧
      run.Chain' (fun a b =>
        (b.frameNum : ℤ) - (a.frameNum : ℤ) ≤ (strategy.maxSkip.getD 1 : ℤ)) ∧
      feature = mkFeature run ∧
      feature.firstFrame = (run.headD defaultBlackframe).frameNum ∧
      feature.lastFrame = (run.getLastD defaultBlackframe).frameNum ∧
      feature.start = (run.headD defaultBlackframe).time ∧
      feature.stop = (run.getLastD defaultBlackframe).time ∧
      feature.firstFrame ≤ feature.lastFrame := by
  rw [findBlackframeGroups] at hf
  obtain ⟨g, hgmem, rfl⟩ := List.mem_map.mp hf
  obtain ⟨hgrun, hglen⟩ := List.mem_filter.mp hgmem
  have hne : g ≠ [] :=
    groupRuns_ne_nil _ _ g hgrun
  have hchain := groupRuns_chain _ _ g hgrun
  have hsub := groupRuns_sublist _ _ g hgrun
  have hsame := chain'_filterNum_eq strategy g hchain
  have hmem : ∀ m ∈ g, m ∈ keptMeasurements ffmpegLines strategy tree := fun m hm =>
    (sortByFilterNum_perm _).mem_iff.mp (hsub.subset hm)
  have hgf : g.filter (fun m => m.filterNum == (g.headD defaultBlackframe).filterNum) = g :=
    List.filter_eq_self.mpr fun m hm => by simpa using hsame m hm
  have hsubf :
      List.Sublist g
        ((keptMeasurements ffmpegLines strategy tree).filter
          fun m => m.filterNum == (g.headD defaultBlackframe).filterNum) := by
    have h1 := hsub.filter (fun m => m.filterNum == (g.headD defaultBlackframe).filterNum)
    rw [hgf, filter_sortByFilterNum] at h1
    exact h1
  have hsubParsed :
      List.Sublist
        ((keptMeasurements ffmpegLines strategy tree).filter
          fun m => m.filterNum == (g.headD defaultBlackframe).filterNum)
        ((parseBlackframes ffmpegLines).filter
          fun m => m.filterNum == (g.headD defaultBlackframe).filterNum) := by
    rw [keptMeasurements]
    exact ((List.filter_sublist _).filter _).trans ((List.filter_sublist _).filter _)
  have hpair : g.Pairwise (fun a b => a.frameNum ≤ b.frameNum) :=
    (horder (g.headD defaultBlackframe).filterNum).sublist (hsubf.trans hsubParsed)
  have hgap : g.Chain' (fun a b =>
      (b.frameNum : ℤ) - (a.frameNum : ℤ) ≤ (strategy.maxSkip.getD 1 : ℤ)) := by
    refine hchain.imp fun a b h => ?_
    unfold groupRel at h
    simp only [Bool.and_eq_true, decide_eq_true_eq] at h
    exact h.1
  refine ⟨g, hne, by simpa using hglen, hmem, hsame, hpair, hgap, rfl, rfl, rfl, rfl, rfl, ?_⟩
  exact pairwise_headD_le_getLastD g hne hpair

/-- Witness fixture for the amended C10: one newsline measurement. -/
def c10WitnessLines : List FfmpegLine := [.blackframe 22 7 1]

/-- Witness for C10 as amended, at a single kept newsline measurement. -/
theorem findBlackframeGroups_invariant_witness :
    ∃ run : List BlackframeOutput,
      run ≠ [] ∧
      ({ name := "newsline", filters := [22], minSilenceSeconds := some 0, minFrames := 1 }
          : FrameSearchStrategy).minFrames ≤ run.length ∧
      (∀ m ∈ run,
        m ∈ keptMeasurements c10WitnessLines
          { name := "newsline", filters := [22], minSilenceSeconds := some 0, minFrames := 1 }
          []) ∧
      (∀ m ∈ run, m.filterNum = (run.headD defaultBlackframe).filterNum) ∧
      run.Pairwise (fun a b => a.frameNum ≤ b.frameNum) ∧
      run.Chain' (fun a b =>
        (b.frameNum : ℤ) - (a.frameNum : ℤ) ≤
          (({ name := "newsline", filters := [22], minSilenceSeconds := some 0, minFrames := 1 }
              : FrameSearchStrategy).maxSkip.getD 1 : ℤ)) ∧
      ({ start := 1000, stop := 1000, firstFrame := 7, lastFrame := 7 } : DetectedFeature)
        = mkFeature run ∧
      ({ start := 1000, stop := 1000, firstFrame := 7, lastFrame := 7 }
          : DetectedFeature).firstFrame = (run.headD defaultBlackframe).frameNum ∧
      ({ start := 1000, stop := 1000, firstFrame := 7, lastFrame := 7 }
          : DetectedFeature).lastFrame = (run.getLastD defaultBlackframe).frameNum ∧
      ({ start := 1000, stop := 1000, firstFrame := 7, lastFrame := 7 }
          : DetectedFeature).start = (run.headD defaultBlackframe).time ∧
      ({ start := 1000, stop := 1000, firstFrame := 7, lastFrame := 7 }
          : DetectedFeature).stop = (run.getLastD defaultBlackframe).time ∧
      ({ start := 1000, stop := 1000, firstFrame := 7, lastFrame := 7 }
          : DetectedFeature).firstFrame
        ≤ ({ start := 1000, stop := 1000, firstFrame := 7, lastFrame := 7 }
            : DetectedFeature).lastFrame := by
  have hp : parseBlackframes c10WitnessLines
      = [{ filterNum := 22, frameNum := 7, time := 1000 }] := by decide
  refine findBlackframeGroups_invariant c10WitnessLines
    { name := "newsline", filters := [22], minSilenceSeconds := some 0, minFrames := 1 }
    [] ?_ _ (by decide)
  intro f
  rw [hp, List.filter_singleton]
  by_cases hf : ({ filterNum := 22, frameNum := 7, time := 1000 }
      : BlackframeOutput).filterNum == f
  · rw [hf]
    exact List.pairwise_singleton _ _
  · rw [Bool.not_eq_true] at hf
    rw [hf]
    exact List.Pairwise.nil

end NhkRecord
